import Mathlib

/-
Verification of the ADL (Assistant Definition Language) dotted-path navigator
and its consumer endpoints, shallowly embedded from
src/app/api/v1/endpoints/adl.py.

The YAML document is modelled as a tree of mappings, sequences and scalars.
Python dict lookup `current[part]` raises KeyError on a missing key and
TypeError when `current` is not a dict; both are modelled as `none`.
Endpoints that can raise an uncaught Python exception (AttributeError on
`.keys()` / `.get` of a non-dict, KeyError on strict indexing) are modelled
with an explicit `pyError` outcome.
-/

/-- A parsed YAML value: scalars, sequences and string-keyed mappings. -/
inductive Yaml where
  | null : Yaml
  | bool : Bool → Yaml
  | int : Int → Yaml
  | str : String → Yaml
  | seq : List Yaml → Yaml
  | map : List (String × Yaml) → Yaml

/-- Python `current[part]`: a successful lookup needs `current` to be a
mapping that contains the key. -/
def lookupKey (y : Yaml) (key : String) : Option Yaml :=
  match y with
  | .map kvs => kvs.lookup key
  | _ => none

/-- The navigation loop of `get_value_from_path`: `for part in parts: current = current[part]`. -/
def navigate : Yaml → List String → Option Yaml
  | current, [] => some current
  | current, part :: rest =>
    match lookupKey current part with
    | some v => navigate v rest
    | none => none

/-- `re.split(r'(?<!/)\.', path)` on a list of characters: split at every
dot whose immediately preceding character is not a slash.  `acc` holds the
characters of the current token in reverse, so `acc.head?` is the character
immediately before the one under examination (after a split the preceding
character was the split dot itself, and `acc.head? = none` also splits). -/
def splitTokensAux : List Char → List Char → List (List Char)
  | acc, [] => [acc.reverse]
  | acc, c :: rest =>
    if c = '.' ∧ acc.head? ≠ some '/' then
      acc.reverse :: splitTokensAux [] rest
    else
      splitTokensAux (c :: acc) rest

/-- The token list produced by the regex split. -/
def splitTokens (cs : List Char) : List (List Char) :=
  splitTokensAux [] cs

/-- The accumulator loop of `get_value_from_path`, walking the raw tokens:
a token is appended directly unless it contains a slash or continues an
open accumulator; the accumulator is flushed as soon as `accumulator ++ "."`
is no longer a prefix of the original path. -/
def segLoop (path : List Char) : List (List Char) → List Char → List (List Char)
  | [], cur => if cur = [] then [] else [cur]
  | t :: ts, cur =>
    if cur = [] then
      if t.contains '/' then
        if List.isPrefixOf (t ++ ['.']) path then segLoop path ts t
        else t :: segLoop path ts []
      else t :: segLoop path ts []
    else
      if List.isPrefixOf ((cur ++ '.' :: t) ++ ['.']) path then segLoop path ts (cur ++ '.' :: t)
      else (cur ++ '.' :: t) :: segLoop path ts []

/-- Full segmentation of a path: regex split followed by the accumulator loop. -/
def segments (path : List Char) : List (List Char) :=
  segLoop path (splitTokens path) []

/-- The segment list of a path, as strings. -/
def partsOf (path : String) : List String :=
  (segments path.data).map (fun cs => String.mk cs)

/-- A FastAPI `HTTPException` carries a status code and a detail string. -/
structure HTTPException where
  status_code : Nat
  detail : String
deriving DecidableEq

/-- The detail string of the 404 raised by `get_value_from_path`. -/
def notFoundDetail (path : String) : String :=
  "Path \x27" ++ path ++ "\x27 not found in ADL configuration"

/-- `get_value_from_path(data, path)`: segment the path, navigate, and turn
any KeyError/TypeError of the navigation loop into a 404 HTTPException. -/
def get_value_from_path (data : Yaml) (path : String) : Except HTTPException Yaml :=
  match navigate data (partsOf path) with
  | some v => Except.ok v
  | none => Except.error ⟨404, notFoundDetail path⟩

/-- A stored configuration record: key and value columns of the settings table. -/
structure Setting where
  key : String
  value : String

/-- `next((s for s in settings if s.key == 'Assistant ADL'), None)`. -/
def findADL (settings : List Setting) : Option Setting :=
  settings.find? (fun s => s.key = "Assistant ADL")

/-- Outcome of `yaml.safe_load` on the stored text: a document, or a
`yaml.YAMLError` with a message. -/
inductive ParseResult where
  | ok : Yaml → ParseResult
  | err : String → ParseResult

/-- Outcome of a request handler: a JSON-shaped value, an `HTTPException`
surfaced to the caller, or an uncaught Python exception (which the web
framework turns into a generic server error). -/
inductive EndpointResult (α : Type) where
  | ok : α → EndpointResult α
  | httpError : Nat → String → EndpointResult α
  | pyError : String → EndpointResult α

/-- `GET /value/{path}`: fetch the stored ADL, parse it, resolve the path.
A YAMLError becomes a 500; the 404 of `get_value_from_path` propagates. -/
def get_adl_value (settings : List Setting) (parse : String → ParseResult)
    (path : String) : EndpointResult Yaml :=
  match findADL settings with
  | none => .httpError 404 "ADL configuration not found"
  | some s =>
    if s.value = "" then .httpError 404 "ADL configuration not found"
    else
      match parse s.value with
      | .err e => .httpError 500 ("Error parsing ADL configuration: " ++ e)
      | .ok adl_data =>
        match get_value_from_path adl_data path with
        | .error ex => .httpError ex.status_code ex.detail
        | .ok v => .ok (.map [("path", .str path), ("value", v)])

/-- The `simple` projection of the commands endpoint: strict indexing
`cmd["display_name"]` / `cmd["description"]`, so a missing key or a
non-mapping entry raises (KeyError/TypeError). -/
def commandSimpleEntries : List (String × Yaml) → Option (List (String × Yaml))
  | [] => some []
  | (name, cmd) :: rest =>
    match lookupKey cmd "display_name", lookupKey cmd "description" with
    | some dn, some ds =>
      (commandSimpleEntries rest).map
        (fun r => (name, Yaml.map [("display_name", dn), ("description", ds)]) :: r)
    | _, _ => none

/-- `GET /commands`: note that, unlike the other three category endpoints,
the call to `get_value_from_path` is NOT wrapped in a try/except, so its
404 propagates to the caller. -/
def list_commands (settings : List Setting) (parse : String → ParseResult)
    (format : String) : EndpointResult Yaml :=
  match findADL settings with
  | none => .httpError 404 "ADL configuration not found"
  | some s =>
    if s.value = "" then .httpError 404 "ADL configuration not found"
    else
      match parse s.value with
      | .err e => .httpError 500 ("Error parsing ADL configuration: " ++ e)
      | .ok adl_data =>
        match get_value_from_path adl_data "assistant_instructions.tools.commands" with
        | .error ex => .httpError ex.status_code ex.detail
        | .ok commands =>
          if format = "names" then
            match commands with
            | .map kvs => .ok (.map [("commands", .seq (kvs.map (fun kv => Yaml.str kv.1)))])
            | _ => .pyError "AttributeError"
          else if format = "simple" then
            match commands with
            | .map kvs =>
              match commandSimpleEntries kvs with
              | some entries => .ok (.map [("commands", .map entries)])
              | none => .pyError "KeyError"
            | _ => .pyError "AttributeError"
          else .ok (.map [("commands", commands)])

/-- The `simple` projection of the options and decorators endpoints:
`entry.get("description", "No description available")`, which needs the
entry to be a mapping (AttributeError otherwise). -/
def descriptionSimpleEntries : List (String × Yaml) → Option (List (String × Yaml))
  | [] => some []
  | (name, entry) :: rest =>
    match entry with
    | Yaml.map m =>
      (descriptionSimpleEntries rest).map
        (fun r =>
          (name, Yaml.map [("description",
            (m.lookup "description").getD (Yaml.str "No description available"))]) :: r)
    | _ => none

/-- `GET /options`: the navigator call is wrapped in a try/except that
returns `{"options": {}}` when the path is not found. -/
def list_options (settings : List Setting) (parse : String → ParseResult)
    (format : String) : EndpointResult Yaml :=
  match findADL settings with
  | none => .httpError 404 "ADL configuration not found"
  | some s =>
    if s.value = "" then .httpError 404 "ADL configuration not found"
    else
      match parse s.value with
      | .err e => .httpError 500 ("Error parsing ADL configuration: " ++ e)
      | .ok adl_data =>
        match get_value_from_path adl_data "assistant_instructions.tools.options" with
        | .error _ => .ok (.map [("options", .map [])])
        | .ok options =>
          if format = "names" then
            match options with
            | .map kvs => .ok (.map [("options", .seq (kvs.map (fun kv => Yaml.str kv.1)))])
            | _ => .pyError "AttributeError"
          else if format = "simple" then
            match options with
            | .map kvs =>
              match descriptionSimpleEntries kvs with
              | some entries => .ok (.map [("options", .map entries)])
              | none => .pyError "AttributeError"
            | _ => .pyError "AttributeError"
          else .ok (.map [("options", options)])

/-- `GET /decorators`: same shape as `GET /options`, with the decorators subtree. -/
def list_decorators (settings : List Setting) (parse : String → ParseResult)
    (format : String) : EndpointResult Yaml :=
  match findADL settings with
  | none => .httpError 404 "ADL configuration not found"
  | some s =>
    if s.value = "" then .httpError 404 "ADL configuration not found"
    else
      match parse s.value with
      | .err e => .httpError 500 ("Error parsing ADL configuration: " ++ e)
      | .ok adl_data =>
        match get_value_from_path adl_data "assistant_instructions.tools.decorators" with
        | .error _ => .ok (.map [("decorators", .map [])])
        | .ok decorators =>
          if format = "names" then
            match decorators with
            | .map kvs => .ok (.map [("decorators", .seq (kvs.map (fun kv => Yaml.str kv.1)))])
            | _ => .pyError "AttributeError"
          else if format = "simple" then
            match decorators with
            | .map kvs =>
              match descriptionSimpleEntries kvs with
              | some entries => .ok (.map [("decorators", .map entries)])
              | none => .pyError "AttributeError"
            | _ => .pyError "AttributeError"
          else .ok (.map [("decorators", decorators)])

/-- Workflow normalization of a mapping-shaped workflows subtree: each
`(key, workflow)` pair becomes `{id: key, display_name, description,
sequence}` with `workflow.get` fallbacks; `workflow.get` needs a mapping
(AttributeError otherwise). -/
def normalizeWorkflowMap : List (String × Yaml) → Option (List Yaml)
  | [] => some []
  | (key, wf) :: rest =>
    match wf with
    | Yaml.map w =>
      (normalizeWorkflowMap rest).map
        (fun r =>
          Yaml.map [("id", Yaml.str key),
            ("display_name", (w.lookup "display_name").getD (Yaml.str key)),
            ("description", (w.lookup "description").getD (Yaml.str "No description available")),
            ("sequence", (w.lookup "sequence").getD (Yaml.seq []))] :: r)
    | _ => none

/-- Workflow normalization: a mapping is converted entry by entry, a
sequence is kept as is, anything else becomes the empty list. -/
def normalizeWorkflows : Yaml → Option (List Yaml)
  | .map kvs => normalizeWorkflowMap kvs
  | .seq ws => some ws
  | _ => some []

/-- The `names` projection over normalized workflows:
`workflow.get("display_name")`, which is `None` when absent and raises
when the entry is not a mapping. -/
def workflowNames : List Yaml → Option (List Yaml)
  | [] => some []
  | w :: ws =>
    match w with
    | Yaml.map m =>
      (workflowNames ws).map (fun r => (m.lookup "display_name").getD Yaml.null :: r)
    | _ => none

/-- The `simple` projection over normalized workflows, with `enumerate`
starting at `i`: `{id: i, display_name, description}` with defaults. -/
def workflowSimpleFrom (i : Nat) : List Yaml → Option (List Yaml)
  | [] => some []
  | w :: ws =>
    match w with
    | Yaml.map m =>
      (workflowSimpleFrom (i + 1) ws).map
        (fun r =>
          Yaml.map [("id", Yaml.int (Int.ofNat i)),
            ("display_name", (m.lookup "display_name").getD (Yaml.str ("Workflow " ++ toString i))),
            ("description", (m.lookup "description").getD (Yaml.str "No description available"))] :: r)
    | _ => none

/-- The `full` projection over normalized workflows, with `enumerate`
starting at `i`: as `simple` plus the `sequence` field. -/
def workflowFullFrom (i : Nat) : List Yaml → Option (List Yaml)
  | [] => some []
  | w :: ws =>
    match w with
    | Yaml.map m =>
      (workflowFullFrom (i + 1) ws).map
        (fun r =>
          Yaml.map [("id", Yaml.int (Int.ofNat i)),
            ("display_name", (m.lookup "display_name").getD (Yaml.str ("Workflow " ++ toString i))),
            ("description", (m.lookup "description").getD (Yaml.str "No description available")),
            ("sequence", (m.lookup "sequence").getD (Yaml.seq []))] :: r)
    | _ => none

/-- `GET /workflows`: the navigator call is wrapped in a try/except that
returns `{"workflows": []}` when the path is not found; otherwise the
resolved value is normalized and projected per the requested format. -/
def list_workflows (settings : List Setting) (parse : String → ParseResult)
    (format : String) : EndpointResult Yaml :=
  match findADL settings with
  | none => .httpError 404 "ADL configuration not found"
  | some s =>
    if s.value = "" then .httpError 404 "ADL configuration not found"
    else
      match parse s.value with
      | .err e => .httpError 500 ("Error parsing ADL configuration: " ++ e)
      | .ok adl_data =>
        match get_value_from_path adl_data "assistant_instructions.tools.workflows" with
        | .error _ => .ok (.map [("workflows", .seq [])])
        | .ok wval =>
          match normalizeWorkflows wval with
          | none => .pyError "AttributeError"
          | some workflows =>
            if format = "names" then
              match workflowNames workflows with
              | some ns => .ok (.map [("workflows", .seq ns)])
              | none => .pyError "AttributeError"
            else if format = "simple" then
              match workflowSimpleFrom 0 workflows with
              | some l => .ok (.map [("workflows", .seq l)])
              | none => .pyError "AttributeError"
            else
              match workflowFullFrom 0 workflows with
              | some l => .ok (.map [("workflows", .seq l)])
              | none => .pyError "AttributeError"

/-- `"".join(c if c.isalnum() else "_" for c in title).lower()` (ASCII
model of `str.isalnum` / `str.lower`). -/
def sanitizeTitle (t : String) : String :=
  String.mk (t.data.map (fun c => if c.isAlphanum then c.toLower else '_'))

/-- `yaml_data.get("metadata", {}).get("description", {}).get("title", "assistant")`:
`none` models any exception of the extraction (a `.get` on a non-mapping,
or a non-string title fed to the sanitizer), which the surrounding inner
try/except converts to the default filename. -/
def titleOf (y : Yaml) : Option String :=
  match y with
  | Yaml.map m =>
    match (m.lookup "metadata").getD (Yaml.map []) with
    | Yaml.map md =>
      match (md.lookup "description").getD (Yaml.map []) with
      | Yaml.map dm =>
        match (dm.lookup "title").getD (Yaml.str "assistant") with
        | Yaml.str t => some t
        | _ => none
      | _ => none
    | _ => none
  | _ => none

/-- The filename of the download: sanitized document title, or
`assistant.yaml` whenever parsing or title extraction raises. -/
def downloadFilename (parse : String → ParseResult) (content : String) : String :=
  match parse content with
  | .err _ => "assistant.yaml"
  | .ok y =>
    match titleOf y with
    | some t => sanitizeTitle t ++ ".yaml"
    | none => "assistant.yaml"

/-- The response of a successful download: raw stored text plus headers. -/
structure DownloadResponse where
  content : String
  media_type : String
  headers : List (String × String)

/-- `GET /download`: the whole handler body sits in a
`try/except Exception`, and `HTTPException` is an `Exception`, so the 404
raised for a missing or empty configuration is caught and re-raised as a
500 whose detail wraps `str(e) = "404: Assistant ADL configuration not
found"`. The success path returns the stored text verbatim. -/
def download_adl_yaml (settings : List Setting) (parse : String → ParseResult) :
    EndpointResult DownloadResponse :=
  match findADL settings with
  | none =>
    .httpError 500 "Error downloading ADL configuration: 404: Assistant ADL configuration not found"
  | some s =>
    if s.value = "" then
      .httpError 500 "Error downloading ADL configuration: 404: Assistant ADL configuration not found"
    else
      .ok { content := s.value,
            media_type := "text/yaml",
            headers :=
              [("Content-Disposition",
                 "attachment; filename=\"" ++ downloadFilename parse s.value ++ "\""),
               ("Cache-Control", "no-store, no-cache, must-revalidate, max-age=0"),
               ("Pragma", "no-cache"),
               ("Expires", "0")] }

/-- Modelled from the spec: naive traversal splits the path at every dot,
unconditionally (auxiliary loop, `acc` reversed). -/
def naiveSplitAux : List Char → List Char → List (List Char)
  | acc, [] => [acc.reverse]
  | acc, c :: rest =>
    if c = '.' then acc.reverse :: naiveSplitAux [] rest
    else naiveSplitAux (c :: acc) rest

/-- Modelled from the spec: split the path on every dot. -/
def naiveSplit (cs : List Char) : List (List Char) :=
  naiveSplitAux [] cs

/-- Modelled from the spec: ordinary dot-split traversal — split the path
on every dot and look up each resulting segment in turn, with the same
not-found outcome as the navigator. -/
def naiveResolve (data : Yaml) (path : String) : Except HTTPException Yaml :=
  match navigate data ((naiveSplit path.data).map (fun cs => String.mk cs)) with
  | some v => Except.ok v
  | none => Except.error ⟨404, notFoundDetail path⟩

/-- The record predicted for one workflow mapping entry: the mapping key
as the id (and as the fallback display name), with default description and
sequence. -/
def workflowEntry (key : String) (wf : Yaml) : Yaml :=
  Yaml.map [("id", Yaml.str key),
    ("display_name", (lookupKey wf "display_name").getD (Yaml.str key)),
    ("description", (lookupKey wf "description").getD (Yaml.str "No description available")),
    ("sequence", (lookupKey wf "sequence").getD (Yaml.seq []))]

/-- Some segment lookup fails along the path: after the first `k` segments
the walk sits at a value `cur`, and the next segment is either missing from
the mapping `cur` or looked up in a non-mapping `cur`. -/
def segmentLookupFailure (data : Yaml) (parts : List String) : Prop :=
  ∃ k, ∃ hk : k < parts.length, ∃ cur,
    navigate data (parts.take k) = some cur ∧
      ((∃ kvs, cur = Yaml.map kvs ∧ kvs.lookup (parts.get ⟨k, hk⟩) = none) ∨
       ∀ kvs, cur ≠ Yaml.map kvs)

/-- Join a segment list with dots (inverse of splitting). -/
def joinDots : List (List Char) → List Char
  | [] => []
  | [t] => t
  | t :: ts => t ++ '.' :: joinDots ts

/-- A settings store holding an ADL blob. -/
def exampleSettings : List Setting :=
  [{ key := "Assistant ADL", value := "blob" }]

/-- A document carrying all four category subtrees. -/
def exampleDoc : Yaml :=
  Yaml.map [("assistant_instructions", Yaml.map [("tools", Yaml.map
    [("commands", Yaml.map [("/A", Yaml.map [("display_name", Yaml.str "A"),
        ("description", Yaml.str "a command")])]),
     ("options", Yaml.map [("opt1", Yaml.map [])]),
     ("decorators", Yaml.map [("dec1", Yaml.map [])]),
     ("workflows", Yaml.map [("wf1", Yaml.map [("display_name", Yaml.str "Intro")]),
        ("wf2", Yaml.map [])])])])]

/-- A parser that always yields `exampleDoc`. -/
def exampleParse : String → ParseResult := fun _ => ParseResult.ok exampleDoc

/-- A parser that always yields the empty mapping. -/
def emptyMapParse : String → ParseResult := fun _ => ParseResult.ok (Yaml.map [])

/-- A parser that always fails, as on malformed YAML. -/
def boomParse : String → ParseResult := fun _ => ParseResult.err "boom"

/-- A document with the `/DAFO` command of the specification example. -/
def dafoDoc : Yaml :=
  Yaml.map [("tools", Yaml.map [("commands", Yaml.map
    [("/DAFO", Yaml.map [("description", Yaml.str "SWOT analysis")])])])]

theorem joinDots_cons (x : List Char) (l : List (List Char)) (h : l ≠ []) :
    joinDots (x :: l) = x ++ '.' :: joinDots l := by
  cases l with
  | nil => exact absurd rfl h
  | cons y ys => rfl

theorem joinDots_merge (cur t : List Char) (ts : List (List Char)) :
    joinDots ((cur ++ '.' :: t) :: ts) = joinDots (cur :: t :: ts) := by
  cases ts with
  | nil => rfl
  | cons y ys =>
    show (cur ++ '.' :: t) ++ '.' :: joinDots (y :: ys)
        = cur ++ '.' :: (t ++ '.' :: joinDots (y :: ys))
    simp

theorem splitTokensAux_ne_nil : ∀ (cs acc : List Char), splitTokensAux acc cs ≠ []
  | [], acc => by simp [splitTokensAux]
  | c :: rest, acc => by
    unfold splitTokensAux
    split
    · simp
    · exact splitTokensAux_ne_nil rest (c :: acc)

theorem joinDots_splitTokensAux : ∀ (cs acc : List Char),
    joinDots (splitTokensAux acc cs) = acc.reverse ++ cs
  | [], acc => by simp [splitTokensAux, joinDots]
  | c :: rest, acc => by
    unfold splitTokensAux
    split
    next h =>
      rw [joinDots_cons _ _ (splitTokensAux_ne_nil rest []),
        joinDots_splitTokensAux rest []]
      simp [h.1]
    next h =>
      rw [joinDots_splitTokensAux rest (c :: acc)]
      simp

theorem joinDots_splitTokens (cs : List Char) : joinDots (splitTokens cs) = cs := by
  unfold splitTokens
  rw [joinDots_splitTokensAux]
  rfl

theorem contains_ne_nil {t : List Char} (h : t.contains '/' = true) : t ≠ [] := by
  intro he
  subst he
  exact absurd h (by decide)

theorem segLoop_eq_nil_iff (path : List Char) : ∀ (ts : List (List Char)) (cur : List Char),
    segLoop path ts cur = [] ↔ ts = [] ∧ cur = []
  | [], cur => by
    unfold segLoop
    split
    next h => simp [h]
    next h => simp [h]
  | t :: ts, cur => by
    unfold segLoop
    split
    next hcur =>
      split
      next hsl =>
        split
        · rw [segLoop_eq_nil_iff path ts t]
          simp [contains_ne_nil hsl]
        · simp
      next => simp
    next hcur =>
      split
      · rw [segLoop_eq_nil_iff path ts (cur ++ '.' :: t)]
        simp
      · simp

theorem joinDots_cons_segLoop (path t : List Char) (ts : List (List Char))
    (hIH : joinDots (segLoop path ts []) = joinDots ts) :
    joinDots (t :: segLoop path ts []) = joinDots (t :: ts) := by
  cases ts with
  | nil => simp [segLoop]
  | cons y ys =>
    have hne : segLoop path (y :: ys) [] ≠ [] := by
      rw [Ne, segLoop_eq_nil_iff]
      simp
    rw [joinDots_cons t _ hne, joinDots_cons t (y :: ys) (by simp), hIH]

theorem joinDots_segLoop (path : List Char) : ∀ (ts : List (List Char)) (cur : List Char),
    joinDots (segLoop path ts cur) = if cur = [] then joinDots ts else joinDots (cur :: ts)
  | [], cur => by
    unfold segLoop
    by_cases h : cur = [] <;> simp [h]
  | t :: ts, cur => by
    have hIH0 : joinDots (segLoop path ts []) = joinDots ts := by
      rw [joinDots_segLoop path ts []]
      simp
    unfold segLoop
    by_cases hcur : cur = []
    · rw [if_pos hcur, if_pos hcur]
      by_cases hsl : t.contains '/' = true
      · rw [if_pos hsl]
        by_cases hpre : List.isPrefixOf (t ++ ['.']) path = true
        · rw [if_pos hpre, joinDots_segLoop path ts t, if_neg (contains_ne_nil hsl)]
        · rw [if_neg hpre]
          exact joinDots_cons_segLoop path t ts hIH0
      · rw [if_neg hsl]
        exact joinDots_cons_segLoop path t ts hIH0
    · rw [if_neg hcur, if_neg hcur]
      have hcur2 : cur ++ '.' :: t ≠ [] := by simp
      by_cases hpre : List.isPrefixOf ((cur ++ '.' :: t) ++ ['.']) path = true
      · rw [if_pos hpre, joinDots_segLoop path ts (cur ++ '.' :: t), if_neg hcur2,
          joinDots_merge]
      · rw [if_neg hpre, joinDots_cons_segLoop path (cur ++ '.' :: t) ts hIH0,
          joinDots_merge]

theorem segments_ne_nil (cs : List Char) : segments cs ≠ [] := by
  unfold segments
  rw [Ne, segLoop_eq_nil_iff]
  intro h
  exact splitTokensAux_ne_nil cs [] h.1

theorem joinDots_segments (cs : List Char) : joinDots (segments cs) = cs := by
  unfold segments
  rw [joinDots_segLoop]
  simp [joinDots_splitTokens]

theorem mk_append (a b : List Char) : String.mk a ++ String.mk b = String.mk (a ++ b) := rfl

theorem intercalateGo_mk : ∀ (as : List (List Char)) (acc : List Char),
    String.intercalate.go (String.mk acc) "." (as.map (fun cs => String.mk cs))
      = String.mk (joinDots (acc :: as))
  | [], acc => rfl
  | b :: bs, acc => by
    show String.intercalate.go (String.mk acc ++ "." ++ String.mk b) "."
        (bs.map (fun cs => String.mk cs)) = String.mk (joinDots (acc :: b :: bs))
    have h1 : String.mk acc ++ "." ++ String.mk b = String.mk (acc ++ '.' :: b) := by
      show String.mk ((acc ++ ['.']) ++ b) = String.mk (acc ++ '.' :: b)
      rw [List.append_assoc]
      rfl
    rw [h1, intercalateGo_mk bs (acc ++ '.' :: b), joinDots_merge]

/-- Claim C9: segmentation preserves the path text — joining the segment
list produced by the split-and-accumulate step of `get_value_from_path`
with the character '.' yields back exactly the original path string. -/
theorem c9_segment_join_roundtrip (path : String) :
    joinDots (segments path.data) = path.data ∧
    String.intercalate "." (partsOf path) = path := by
  refine ⟨joinDots_segments path.data, ?_⟩
  unfold partsOf
  cases h : segments path.data with
  | nil => exact absurd h (segments_ne_nil path.data)
  | cons a as =>
    show String.intercalate.go (String.mk a) "." (as.map (fun cs => String.mk cs)) = path
    rw [intercalateGo_mk as a]
    have hj : joinDots (a :: as) = path.data := by
      rw [← h]
      exact joinDots_segments path.data
    rw [hj]

theorem contains_iff_mem {t : List Char} {c : Char} : t.contains c = true ↔ c ∈ t := by
  simp [List.contains, List.elem_iff]

theorem naiveSplitAux_ne_nil : ∀ (cs acc : List Char), naiveSplitAux acc cs ≠ []
  | [], acc => by simp [naiveSplitAux]
  | c :: rest, acc => by
    unfold naiveSplitAux
    split
    · simp
    · exact naiveSplitAux_ne_nil rest (c :: acc)

theorem joinDots_naiveSplitAux : ∀ (cs acc : List Char),
    joinDots (naiveSplitAux acc cs) = acc.reverse ++ cs
  | [], acc => by simp [naiveSplitAux, joinDots]
  | c :: rest, acc => by
    unfold naiveSplitAux
    split
    next h =>
      rw [joinDots_cons _ _ (naiveSplitAux_ne_nil rest []),
        joinDots_naiveSplitAux rest []]
      simp [h]
    next h =>
      rw [joinDots_naiveSplitAux rest (c :: acc)]
      simp

theorem joinDots_naiveSplit (cs : List Char) : joinDots (naiveSplit cs) = cs := by
  unfold naiveSplit
  rw [joinDots_naiveSplitAux]
  rfl

theorem mem_joinDots_of_mem : ∀ (l : List (List Char)) (seg : List Char) (c : Char),
    c ∈ seg → seg ∈ l → c ∈ joinDots l
  | [], _, _, _, hl => absurd hl (List.not_mem_nil _)
  | [t], seg, c, hc, hl => by
    rw [List.mem_singleton] at hl
    subst hl
    exact hc
  | t :: u :: us, seg, c, hc, hl => by
    rw [joinDots_cons _ _ (by simp)]
    rcases List.mem_cons.mp hl with rfl | hl2
    · exact List.mem_append_left _ hc
    · exact List.mem_append_right _
        (List.mem_cons_of_mem _ (mem_joinDots_of_mem (u :: us) seg c hc hl2))

theorem splitTokensAux_eq_naive : ∀ (cs acc : List Char), '/' ∉ cs → '/' ∉ acc →
    splitTokensAux acc cs = naiveSplitAux acc cs
  | [], _, _, _ => rfl
  | c :: rest, acc, hcs, hacc => by
    have hrest : '/' ∉ rest := fun hr => hcs (List.mem_cons_of_mem _ hr)
    unfold splitTokensAux naiveSplitAux
    by_cases hdot : c = '.'
    · have hhead : acc.head? ≠ some '/' := fun hh => hacc (List.mem_of_mem_head? hh)
      rw [if_pos (And.intro hdot hhead), if_pos hdot,
        splitTokensAux_eq_naive rest [] hrest (by simp)]
    · have hcacc : '/' ∉ c :: acc := by
        intro hm
        rcases List.mem_cons.mp hm with he | hm2
        · exact hcs (he ▸ List.mem_cons_self c rest)
        · exact hacc hm2
      rw [if_neg (fun hand => hdot hand.1), if_neg hdot,
        splitTokensAux_eq_naive rest (c :: acc) hrest hcacc]

theorem segLoop_id (path : List Char) : ∀ (ts : List (List Char)),
    (∀ t ∈ ts, t.contains '/' = false) → segLoop path ts [] = ts
  | [], _ => by simp [segLoop]
  | t :: ts, h => by
    unfold segLoop
    rw [if_pos rfl, if_neg (by rw [h t (List.mem_cons_self t ts)]; simp),
      segLoop_id path ts (fun u hu => h u (List.mem_cons_of_mem t hu))]

theorem segments_eq_naive (cs : List Char) (h : '/' ∉ cs) : segments cs = naiveSplit cs := by
  unfold segments
  have hst : splitTokens cs = naiveSplit cs := splitTokensAux_eq_naive cs [] h (by simp)
  rw [hst]
  apply segLoop_id
  intro t ht
  rw [Bool.eq_false_iff, Ne, contains_iff_mem]
  intro hmem
  have : '/' ∈ joinDots (naiveSplit cs) := mem_joinDots_of_mem _ t '/' hmem ht
  rw [joinDots_naiveSplit] at this
  exact h this

/-- Claim C3: for every path in which no dot-separated segment contains a
slash, the navigator agrees with ordinary dot-split traversal, both on the
value found and on the not-found failure. -/
theorem mem_joinDots : ∀ (l : List (List Char)) (c : Char),
    c ∈ joinDots l → c = '.' ∨ ∃ seg ∈ l, c ∈ seg
  | [], c, hc => absurd hc (List.not_mem_nil c)
  | [t], c, hc => Or.inr ⟨t, List.mem_singleton_self t, hc⟩
  | t :: u :: us, c, hc => by
    rw [joinDots_cons _ _ (by simp)] at hc
    rcases List.mem_append.mp hc with h1 | h2
    · exact Or.inr ⟨t, List.mem_cons_self _ _, h1⟩
    · rcases List.mem_cons.mp h2 with rfl | h3
      · exact Or.inl rfl
      · rcases mem_joinDots (u :: us) c h3 with hd | ⟨seg, hs, hcs⟩
        · exact Or.inl hd
        · exact Or.inr ⟨seg, List.mem_cons_of_mem _ hs, hcs⟩

/-- Claim C3: for every path in which no dot-separated segment contains the
character '/', and every document, the navigator agrees with ordinary
dot-split traversal, both on the value found and on the not-found failure. -/
theorem c3_navigator_eq_naive_traversal (data : Yaml) (path : String)
    (h : ∀ seg ∈ naiveSplit path.data, '/' ∉ seg) :
    get_value_from_path data path = naiveResolve data path := by
  have hp : '/' ∉ path.data := by
    intro hc
    rw [← joinDots_naiveSplit path.data] at hc
    rcases mem_joinDots _ _ hc with hd | ⟨seg, hs, hcs⟩
    · exact absurd hd (by decide)
    · exact h seg hs hcs
  have hseg : segments path.data = naiveSplit path.data := segments_eq_naive path.data hp
  unfold get_value_from_path naiveResolve partsOf
  rw [hseg]

/-- Witness for C3 at the concrete slash-free path `"a.b"` and a document
where it resolves. -/
theorem c3_witness :
    (∀ seg ∈ naiveSplit ("a.b" : String).data, '/' ∉ seg) ∧
    get_value_from_path (Yaml.map [("a", Yaml.map [("b", Yaml.str "v")])]) "a.b"
      = naiveResolve (Yaml.map [("a", Yaml.map [("b", Yaml.str "v")])]) "a.b" :=
  ⟨by decide, c3_navigator_eq_naive_traversal
    (Yaml.map [("a", Yaml.map [("b", Yaml.str "v")])]) "a.b" (by decide)⟩

/-- Claim C2: for every document holding, under "tools" then "commands", a
mapping with key "/DAFO" whose value is a mapping with key "description",
the navigator resolves "tools.commands./DAFO.description" to the stored
description value and "tools.commands./DAFO" to the whole entry. -/
theorem c2_dafo_paths (doc tools commands dafo descVal : Yaml)
    (h1 : lookupKey doc "tools" = some tools)
    (h2 : lookupKey tools "commands" = some commands)
    (h3 : lookupKey commands "/DAFO" = some dafo)
    (h4 : lookupKey dafo "description" = some descVal) :
    get_value_from_path doc "tools.commands./DAFO.description" = Except.ok descVal ∧
    get_value_from_path doc "tools.commands./DAFO" = Except.ok dafo := by
  have hp1 : partsOf "tools.commands./DAFO.description"
      = ["tools", "commands", "/DAFO", "description"] := by decide
  have hp2 : partsOf "tools.commands./DAFO" = ["tools", "commands", "/DAFO"] := by decide
  constructor
  · unfold get_value_from_path
    rw [hp1]
    simp [navigate, h1, h2, h3, h4]
  · unfold get_value_from_path
    rw [hp2]
    simp [navigate, h1, h2, h3]

/-- Witness for C2 on the concrete `/DAFO` document. -/
theorem c2_witness :
    get_value_from_path dafoDoc "tools.commands./DAFO.description"
        = Except.ok (Yaml.str "SWOT analysis") ∧
    get_value_from_path dafoDoc "tools.commands./DAFO"
        = Except.ok (Yaml.map [("description", Yaml.str "SWOT analysis")]) :=
  c2_dafo_paths dafoDoc
    (Yaml.map [("commands", Yaml.map
      [("/DAFO", Yaml.map [("description", Yaml.str "SWOT analysis")])])])
    (Yaml.map [("/DAFO", Yaml.map [("description", Yaml.str "SWOT analysis")])])
    (Yaml.map [("description", Yaml.str "SWOT analysis")])
    (Yaml.str "SWOT analysis")
    rfl rfl rfl rfl

theorem navigate_eq_none_iff : ∀ (parts : List String) (data : Yaml),
    navigate data parts = none ↔
      ∃ k, ∃ hk : k < parts.length, ∃ cur,
        navigate data (parts.take k) = some cur ∧
          lookupKey cur (parts.get ⟨k, hk⟩) = none
  | [], data => by
    simp [navigate]
  | p :: ps, data => by
    cases hl : lookupKey data p with
    | none =>
      constructor
      · intro _
        exact ⟨0, by simp, data, by simp [navigate], hl⟩
      · intro _
        show (match lookupKey data p with
          | some v => navigate v ps
          | none => none) = none
        rw [hl]
    | some v =>
      have hstep : navigate data (p :: ps) = navigate v ps := by
        show (match lookupKey data p with
          | some v => navigate v ps
          | none => none) = navigate v ps
        rw [hl]
      rw [hstep, navigate_eq_none_iff ps v]
      constructor
      · rintro ⟨k, hk, cur, hnav, hfail⟩
        refine ⟨k + 1, by simpa using Nat.succ_lt_succ hk, cur, ?_, ?_⟩
        · show (match lookupKey data p with
            | some v => navigate v (ps.take k)
            | none => none) = some cur
          rw [hl]
          exact hnav
        · simpa using hfail
      · rintro ⟨k, hk, cur, hnav, hfail⟩
        cases k with
        | zero =>
          have hcur : cur = data := by
            have : some data = some cur := by simpa [navigate] using hnav
            injection this with h2
            exact h2.symm
          subst hcur
          rw [show ((p :: ps).get ⟨0, hk⟩) = p from rfl, hl] at hfail
          exact Option.noConfusion hfail
        | succ k =>
          refine ⟨k, by simpa using hk, cur, ?_, ?_⟩
          · have : (match lookupKey data p with
              | some v => navigate v (ps.take k)
              | none => none) = some cur := hnav
            rw [hl] at this
            exact this
          · simpa using hfail

theorem lookupKey_eq_none_iff (cur : Yaml) (s : String) :
    lookupKey cur s = none ↔
      ((∃ kvs, cur = Yaml.map kvs ∧ kvs.lookup s = none) ∨ ∀ kvs, cur ≠ Yaml.map kvs) := by
  cases cur
  case map kvs =>
    constructor
    · intro h
      exact Or.inl ⟨kvs, rfl, h⟩
    · rintro (⟨kvs2, heq, h⟩ | h)
      · injection heq with he
        subst he
        exact h
      · exact absurd rfl (h kvs)
  all_goals
    constructor
  all_goals
    intro _
  case null.mp => exact Or.inr (fun kvs h => nomatch h)
  case bool.mp => exact Or.inr (fun kvs h => nomatch h)
  case int.mp => exact Or.inr (fun kvs h => nomatch h)
  case str.mp => exact Or.inr (fun kvs h => nomatch h)
  case seq.mp => exact Or.inr (fun kvs h => nomatch h)
  all_goals rfl

theorem segmentLookupFailure_iff (data : Yaml) (parts : List String) :
    segmentLookupFailure data parts ↔ navigate data parts = none := by
  rw [navigate_eq_none_iff]
  unfold segmentLookupFailure
  refine exists_congr (fun k => exists_congr (fun hk => exists_congr (fun cur => ?_)))
  exact and_congr_right (fun _ => (lookupKey_eq_none_iff cur _).symm)

/-- Claim C4: the navigator fails with the 404 NotFound error exactly when
some segment lookup fails — the segment is missing from the current mapping
or the current value is not a mapping — and a YAML parse failure of the
source document surfaces as a distinct 500 error, never converted into
NotFound. -/
theorem c4_notfound_iff_segment_failure (data : Yaml) (path : String) (e : HTTPException)
    (settings : List Setting) (s : Setting) (parse : String → ParseResult) (msg : String)
    (hfind : findADL settings = some s) (hval : ¬ s.value = "")
    (hparse : parse s.value = ParseResult.err msg) :
    (get_value_from_path data path = Except.error e ↔
      (e = ⟨404, notFoundDetail path⟩ ∧ segmentLookupFailure data (partsOf path))) ∧
    get_adl_value settings parse path
      = EndpointResult.httpError 500 ("Error parsing ADL configuration: " ++ msg) := by
  constructor
  · cases hn : navigate data (partsOf path) with
    | some v =>
      have hok : get_value_from_path data path = Except.ok v := by
        unfold get_value_from_path
        rw [hn]
      rw [hok]
      constructor
      · intro h
        exact Except.noConfusion h
      · rintro ⟨_, hfail⟩
        have hnone := (segmentLookupFailure_iff data (partsOf path)).mp hfail
        rw [hn] at hnone
        exact Option.noConfusion hnone
    | none =>
      have herr : get_value_from_path data path
          = Except.error ⟨404, notFoundDetail path⟩ := by
        unfold get_value_from_path
        rw [hn]
      rw [herr]
      constructor
      · intro h
        injection h with he
        exact ⟨he.symm, (segmentLookupFailure_iff data (partsOf path)).mpr hn⟩
      · rintro ⟨rfl, _⟩
        rfl
  · simp only [get_adl_value, hfind, hparse]
    rw [if_neg hval]

/-- Witness for C4: a one-segment path missing from the empty mapping, and
a settings store whose blob fails to parse. -/
theorem c4_witness :
    ((get_value_from_path (Yaml.map []) "a" = Except.error ⟨404, notFoundDetail "a"⟩ ↔
      ((⟨404, notFoundDetail "a"⟩ : HTTPException) = ⟨404, notFoundDetail "a"⟩ ∧
        segmentLookupFailure (Yaml.map []) (partsOf "a"))) ∧
    get_adl_value exampleSettings boomParse "a"
      = EndpointResult.httpError 500 ("Error parsing ADL configuration: " ++ "boom")) :=
  c4_notfound_iff_segment_failure (Yaml.map []) "a" ⟨404, notFoundDetail "a"⟩
    exampleSettings { key := "Assistant ADL", value := "blob" } boomParse "boom"
    rfl (by decide) rfl

theorem normalizeWorkflowMap_spec : ∀ (kvs : List (String × Yaml)),
    (∀ kv ∈ kvs, ∃ w, kv.2 = Yaml.map w) →
    normalizeWorkflowMap kvs = some (kvs.map (fun kv => workflowEntry kv.1 kv.2))
  | [], _ => rfl
  | (key, wf) :: rest, h => by
    obtain ⟨w, hw⟩ := h (key, wf) (List.mem_cons_self _ _)
    have hw2 : wf = Yaml.map w := hw
    have hr := normalizeWorkflowMap_spec rest (fun u hu => h u (List.mem_cons_of_mem _ hu))
    subst hw2
    show normalizeWorkflowMap ((key, Yaml.map w) :: rest)
        = some (((key, Yaml.map w) :: rest).map (fun kv => workflowEntry kv.1 kv.2))
    unfold normalizeWorkflowMap
    rw [hr]
    rfl

/-- Claim C5: a mapping-shaped workflows value is normalized to one record
per entry — the mapping key as id and fallback display name, with default
description and sequence; the two-entry example yields `"wf2"` and
`"No description available"` as the second entry's display name and
description; a value that is neither a mapping nor a sequence is treated
as the empty list. -/
theorem c5_workflow_normalization (kvs : List (String × Yaml))
    (h : ∀ kv ∈ kvs, ∃ w, kv.2 = Yaml.map w)
    (y : Yaml) (hm : ∀ m, y ≠ Yaml.map m) (hs : ∀ l, y ≠ Yaml.seq l) :
    normalizeWorkflows (Yaml.map kvs)
        = some (kvs.map (fun kv => workflowEntry kv.1 kv.2)) ∧
    normalizeWorkflows (Yaml.map [("wf1", Yaml.map [("display_name", Yaml.str "Intro")]),
        ("wf2", Yaml.map [])])
      = some [Yaml.map [("id", Yaml.str "wf1"), ("display_name", Yaml.str "Intro"),
          ("description", Yaml.str "No description available"), ("sequence", Yaml.seq [])],
        Yaml.map [("id", Yaml.str "wf2"), ("display_name", Yaml.str "wf2"),
          ("description", Yaml.str "No description available"), ("sequence", Yaml.seq [])]] ∧
    normalizeWorkflows y = some [] := by
  refine ⟨normalizeWorkflowMap_spec kvs h, rfl, ?_⟩
  cases y with
  | null => rfl
  | bool b => rfl
  | int n => rfl
  | str t => rfl
  | seq l => exact absurd rfl (hs l)
  | map m => exact absurd rfl (hm m)

/-- Witness for C5 on the two-workflow example mapping and a scalar value. -/
theorem c5_witness :
    normalizeWorkflows (Yaml.map [("wf1", Yaml.map [("display_name", Yaml.str "Intro")]),
        ("wf2", Yaml.map [])])
      = some ([("wf1", Yaml.map [("display_name", Yaml.str "Intro")]),
          ("wf2", Yaml.map [])].map (fun kv => workflowEntry kv.1 kv.2)) ∧
    normalizeWorkflows (Yaml.map [("wf1", Yaml.map [("display_name", Yaml.str "Intro")]),
        ("wf2", Yaml.map [])])
      = some [Yaml.map [("id", Yaml.str "wf1"), ("display_name", Yaml.str "Intro"),
          ("description", Yaml.str "No description available"), ("sequence", Yaml.seq [])],
        Yaml.map [("id", Yaml.str "wf2"), ("display_name", Yaml.str "wf2"),
          ("description", Yaml.str "No description available"), ("sequence", Yaml.seq [])]] ∧
    normalizeWorkflows (Yaml.str "not a collection") = some [] :=
  c5_workflow_normalization
    [("wf1", Yaml.map [("display_name", Yaml.str "Intro")]), ("wf2", Yaml.map [])]
    (by
      intro kv hkv
      rcases List.mem_cons.mp hkv with rfl | hkv2
      · exact ⟨_, rfl⟩
      · rcases List.mem_cons.mp hkv2 with rfl | hkv3
        · exact ⟨_, rfl⟩
        · exact absurd hkv3 (List.not_mem_nil kv))
    (Yaml.str "not a collection")
    (fun m hmm2 => nomatch hmm2)
    (fun l hss2 => nomatch hss2)

/-- Counterexample to C1 as stated: with a stored document that parses to
the empty mapping (so no category subtree resolves), the commands endpoint
does not return an empty collection — it surfaces the navigator's 404. -/
theorem c1_counterexample :
    list_commands exampleSettings emptyMapParse "full"
      = EndpointResult.httpError 404
          (notFoundDetail "assistant_instructions.tools.commands") := rfl

/-- Claim C1 amended: when a category's fixed subtree path does not
resolve, the options, decorators and workflows endpoints degrade to an
empty collection (empty mapping, empty mapping, empty list), while the
commands endpoint propagates the navigator's NotFound error. -/
theorem c1_amended_missing_subtree (settings : List Setting) (s : Setting)
    (parse : String → ParseResult) (doc : Yaml) (format : String)
    (ec eo ed ew : HTTPException)
    (hfind : findADL settings = some s) (hval : ¬ s.value = "")
    (hparse : parse s.value = ParseResult.ok doc)
    (hc : get_value_from_path doc "assistant_instructions.tools.commands" = Except.error ec)
    (ho : get_value_from_path doc "assistant_instructions.tools.options" = Except.error eo)
    (hd : get_value_from_path doc "assistant_instructions.tools.decorators" = Except.error ed)
    (hw : get_value_from_path doc "assistant_instructions.tools.workflows" = Except.error ew) :
    list_commands settings parse format
        = EndpointResult.httpError ec.status_code ec.detail ∧
    list_options settings parse format
        = EndpointResult.ok (Yaml.map [("options", Yaml.map [])]) ∧
    list_decorators settings parse format
        = EndpointResult.ok (Yaml.map [("decorators", Yaml.map [])]) ∧
    list_workflows settings parse format
        = EndpointResult.ok (Yaml.map [("workflows", Yaml.seq [])]) := by
  refine ⟨?_, ?_, ?_, ?_⟩
  · simp only [list_commands, hfind, hparse, hc]
    rw [if_neg hval]
  · simp only [list_options, hfind, hparse, ho]
    rw [if_neg hval]
  · simp only [list_decorators, hfind, hparse, hd]
    rw [if_neg hval]
  · simp only [list_workflows, hfind, hparse, hw]
    rw [if_neg hval]

/-- Witness for the amended C1 on the empty-mapping document. -/
theorem c1_amended_witness :
    list_commands exampleSettings emptyMapParse "simple"
        = EndpointResult.httpError 404
            (notFoundDetail "assistant_instructions.tools.commands") ∧
    list_options exampleSettings emptyMapParse "simple"
        = EndpointResult.ok (Yaml.map [("options", Yaml.map [])]) ∧
    list_decorators exampleSettings emptyMapParse "simple"
        = EndpointResult.ok (Yaml.map [("decorators", Yaml.map [])]) ∧
    list_workflows exampleSettings emptyMapParse "simple"
        = EndpointResult.ok (Yaml.map [("workflows", Yaml.seq [])]) :=
  c1_amended_missing_subtree exampleSettings { key := "Assistant ADL", value := "blob" }
    emptyMapParse (Yaml.map []) "simple"
    ⟨404, notFoundDetail "assistant_instructions.tools.commands"⟩
    ⟨404, notFoundDetail "assistant_instructions.tools.options"⟩
    ⟨404, notFoundDetail "assistant_instructions.tools.decorators"⟩
    ⟨404, notFoundDetail "assistant_instructions.tools.workflows"⟩
    rfl (by decide) rfl rfl rfl rfl rfl

/-- Claim C6 documents the intended 404, but `download_adl_yaml` wraps its
own `raise HTTPException(404, ...)` in `except Exception`, which catches
`HTTPException` and re-raises it as a 500.  With no stored record (or an
empty one) every other ADL endpoint reports 404 while download reports
500. -/
theorem c6_missing_config_statuses :
    get_adl_value [] exampleParse "a"
        = EndpointResult.httpError 404 "ADL configuration not found" ∧
    list_commands [] exampleParse "full"
        = EndpointResult.httpError 404 "ADL configuration not found" ∧
    list_options [] exampleParse "full"
        = EndpointResult.httpError 404 "ADL configuration not found" ∧
    list_decorators [] exampleParse "full"
        = EndpointResult.httpError 404 "ADL configuration not found" ∧
    list_workflows [] exampleParse "full"
        = EndpointResult.httpError 404 "ADL configuration not found" ∧
    download_adl_yaml [] exampleParse
        = EndpointResult.httpError 500
            "Error downloading ADL configuration: 404: Assistant ADL configuration not found" ∧
    download_adl_yaml [{ key := "Assistant ADL", value := "" }] exampleParse
        = EndpointResult.httpError 500
            "Error downloading ADL configuration: 404: Assistant ADL configuration not found" :=
  ⟨rfl, rfl, rfl, rfl, rfl, rfl, rfl⟩

theorem workflowNames_of_normalized : ∀ (kvs : List (String × Yaml)),
    workflowNames (kvs.map (fun kv => workflowEntry kv.1 kv.2))
      = some (kvs.map (fun kv => (lookupKey kv.2 "display_name").getD (Yaml.str kv.1)))
  | [] => rfl
  | (key, wf) :: rest => by
    have hr := workflowNames_of_normalized rest
    simp only [List.map_cons]
    show Option.map (fun r => (lookupKey wf "display_name").getD (Yaml.str key) :: r)
        (workflowNames (rest.map (fun kv => workflowEntry kv.1 kv.2)))
      = some ((lookupKey wf "display_name").getD (Yaml.str key)
          :: rest.map (fun kv => (lookupKey kv.2 "display_name").getD (Yaml.str kv.1)))
    rw [hr]
    rfl

/-- Claim C7: with format "names", the commands endpoint returns exactly
the keys of the commands mapping (likewise options and decorators), while
the workflows endpoint returns the display names of the normalized
entries — the mapping key only as a fallback — not the raw keys. -/
theorem c7_names_projection (settings : List Setting) (s : Setting)
    (parse : String → ParseResult) (doc : Yaml)
    (cs os ds kvs : List (String × Yaml))
    (hfind : findADL settings = some s) (hval : ¬ s.value = "")
    (hparse : parse s.value = ParseResult.ok doc)
    (hc : get_value_from_path doc "assistant_instructions.tools.commands"
        = Except.ok (Yaml.map cs))
    (ho : get_value_from_path doc "assistant_instructions.tools.options"
        = Except.ok (Yaml.map os))
    (hd : get_value_from_path doc "assistant_instructions.tools.decorators"
        = Except.ok (Yaml.map ds))
    (hw : get_value_from_path doc "assistant_instructions.tools.workflows"
        = Except.ok (Yaml.map kvs))
    (hall : ∀ kv ∈ kvs, ∃ w, kv.2 = Yaml.map w) :
    list_commands settings parse "names"
        = EndpointResult.ok (Yaml.map [("commands",
            Yaml.seq (cs.map (fun kv => Yaml.str kv.1)))]) ∧
    list_options settings parse "names"
        = EndpointResult.ok (Yaml.map [("options",
            Yaml.seq (os.map (fun kv => Yaml.str kv.1)))]) ∧
    list_decorators settings parse "names"
        = EndpointResult.ok (Yaml.map [("decorators",
            Yaml.seq (ds.map (fun kv => Yaml.str kv.1)))]) ∧
    list_workflows settings parse "names"
        = EndpointResult.ok (Yaml.map [("workflows",
            Yaml.seq (kvs.map (fun kv =>
              (lookupKey kv.2 "display_name").getD (Yaml.str kv.1))))]) := by
  refine ⟨?_, ?_, ?_, ?_⟩
  · simp only [list_commands, hfind, hparse, hc]
    rw [if_neg hval]
    exact if_pos trivial
  · simp only [list_options, hfind, hparse, ho]
    rw [if_neg hval]
    exact if_pos trivial
  · simp only [list_decorators, hfind, hparse, hd]
    rw [if_neg hval]
    exact if_pos trivial
  · simp only [list_workflows, hfind, hparse, hw, normalizeWorkflows,
      normalizeWorkflowMap_spec kvs hall, workflowNames_of_normalized kvs]
    rw [if_neg hval]
    exact if_pos trivial

/-- Witness for C7 on the document with all four category subtrees. -/
theorem c7_witness :
    list_commands exampleSettings exampleParse "names"
        = EndpointResult.ok (Yaml.map [("commands", Yaml.seq [Yaml.str "/A"])]) ∧
    list_options exampleSettings exampleParse "names"
        = EndpointResult.ok (Yaml.map [("options", Yaml.seq [Yaml.str "opt1"])]) ∧
    list_decorators exampleSettings exampleParse "names"
        = EndpointResult.ok (Yaml.map [("decorators", Yaml.seq [Yaml.str "dec1"])]) ∧
    list_workflows exampleSettings exampleParse "names"
        = EndpointResult.ok (Yaml.map [("workflows",
            Yaml.seq [Yaml.str "Intro", Yaml.str "wf2"])]) :=
  c7_names_projection exampleSettings { key := "Assistant ADL", value := "blob" }
    exampleParse exampleDoc
    [("/A", Yaml.map [("display_name", Yaml.str "A"), ("description", Yaml.str "a command")])]
    [("opt1", Yaml.map [])]
    [("dec1", Yaml.map [])]
    [("wf1", Yaml.map [("display_name", Yaml.str "Intro")]), ("wf2", Yaml.map [])]
    rfl (by decide) rfl rfl rfl rfl rfl
    (by
      intro kv hkv
      rcases List.mem_cons.mp hkv with rfl | hkv2
      · exact ⟨_, rfl⟩
      · rcases List.mem_cons.mp hkv2 with rfl | hkv3
        · exact ⟨_, rfl⟩
        · exact absurd hkv3 (List.not_mem_nil kv))

theorem workflowFullFrom_ids : ∀ (ws : List Yaml) (n : Nat) (es : List Yaml),
    workflowFullFrom n ws = some es →
    ∀ i, ∀ hi : i < es.length,
      lookupKey (es.get ⟨i, hi⟩) "id" = some (Yaml.int (Int.ofNat (n + i)))
  | [], n, es, h => by
    have he : es = [] := by
      have h2 : (some [] : Option (List Yaml)) = some es := h
      injection h2 with h3
      exact h3.symm
    subst he
    intro i hi
    exact absurd hi (by simp)
  | w :: ws, n, es, h => by
    cases w with
    | null => exact Option.noConfusion h
    | bool b => exact Option.noConfusion h
    | int k => exact Option.noConfusion h
    | str t => exact Option.noConfusion h
    | seq l => exact Option.noConfusion h
    | map m =>
      have h2 : ((workflowFullFrom (n + 1) ws).map (fun r =>
          Yaml.map [("id", Yaml.int (Int.ofNat n)),
            ("display_name", (m.lookup "display_name").getD
              (Yaml.str ("Workflow " ++ toString n))),
            ("description", (m.lookup "description").getD
              (Yaml.str "No description available")),
            ("sequence", (m.lookup "sequence").getD (Yaml.seq []))] :: r)) = some es := h
      rcases Option.map_eq_some'.mp h2 with ⟨rest, hrest, hes⟩
      subst hes
      intro i hi
      cases i with
      | zero => rfl
      | succ i =>
        have hlen : i < rest.length := by simpa using hi
        have hrec2 := workflowFullFrom_ids ws (n + 1) rest hrest i hlen
        have harith : n + 1 + i = n + (i + 1) := by omega
        rw [harith] at hrec2
        exact hrec2

theorem workflowSimpleFrom_ids : ∀ (ws : List Yaml) (n : Nat) (es : List Yaml),
    workflowSimpleFrom n ws = some es →
    ∀ i, ∀ hi : i < es.length,
      lookupKey (es.get ⟨i, hi⟩) "id" = some (Yaml.int (Int.ofNat (n + i)))
  | [], n, es, h => by
    have he : es = [] := by
      have h2 : (some [] : Option (List Yaml)) = some es := h
      injection h2 with h3
      exact h3.symm
    subst he
    intro i hi
    exact absurd hi (by simp)
  | w :: ws, n, es, h => by
    cases w with
    | null => exact Option.noConfusion h
    | bool b => exact Option.noConfusion h
    | int k => exact Option.noConfusion h
    | str t => exact Option.noConfusion h
    | seq l => exact Option.noConfusion h
    | map m =>
      have h2 : ((workflowSimpleFrom (n + 1) ws).map (fun r =>
          Yaml.map [("id", Yaml.int (Int.ofNat n)),
            ("display_name", (m.lookup "display_name").getD
              (Yaml.str ("Workflow " ++ toString n))),
            ("description", (m.lookup "description").getD
              (Yaml.str "No description available"))] :: r)) = some es := h
      rcases Option.map_eq_some'.mp h2 with ⟨rest, hrest, hes⟩
      subst hes
      intro i hi
      cases i with
      | zero => rfl
      | succ i =>
        have hlen : i < rest.length := by simpa using hi
        have hrec2 := workflowSimpleFrom_ids ws (n + 1) rest hrest i hlen
        have harith : n + 1 + i = n + (i + 1) := by omega
        rw [harith] at hrec2
        exact hrec2

/-- Claim C10: in both full and simple format, every workflow entry
returned by the workflows endpoint carries an id equal to its zero-based
position in the normalized sequence, regardless of the mapping key or any
id produced during normalization. -/
theorem c10_workflow_ids_positional (settings : List Setting) (s : Setting)
    (parse : String → ParseResult) (doc wval : Yaml) (ws fs ss : List Yaml) (i : Nat)
    (hfind : findADL settings = some s) (hval : ¬ s.value = "")
    (hparse : parse s.value = ParseResult.ok doc)
    (hw : get_value_from_path doc "assistant_instructions.tools.workflows" = Except.ok wval)
    (hn : normalizeWorkflows wval = some ws)
    (hf : workflowFullFrom 0 ws = some fs)
    (hss : workflowSimpleFrom 0 ws = some ss)
    (hif : i < fs.length) (his : i < ss.length) :
    list_workflows settings parse "full"
        = EndpointResult.ok (Yaml.map [("workflows", Yaml.seq fs)]) ∧
    lookupKey (fs.get ⟨i, hif⟩) "id" = some (Yaml.int (Int.ofNat i)) ∧
    list_workflows settings parse "simple"
        = EndpointResult.ok (Yaml.map [("workflows", Yaml.seq ss)]) ∧
    lookupKey (ss.get ⟨i, his⟩) "id" = some (Yaml.int (Int.ofNat i)) := by
  refine ⟨?_, ?_, ?_, ?_⟩
  · simp only [list_workflows, hfind, hparse, hw, hn, hf]
    rw [if_neg hval]
    rfl
  · have hids := workflowFullFrom_ids ws 0 fs hf i hif
    simpa using hids
  · simp only [list_workflows, hfind, hparse, hw, hn, hss]
    rw [if_neg hval]
    rfl
  · have hids := workflowSimpleFrom_ids ws 0 ss hss i his
    simpa using hids

/-- Witness for C10 on the two-workflow example document, at index 1. -/
theorem c10_witness :
    list_workflows exampleSettings exampleParse "full"
        = EndpointResult.ok (Yaml.map [("workflows", Yaml.seq
            [Yaml.map [("id", Yaml.int 0), ("display_name", Yaml.str "Intro"),
              ("description", Yaml.str "No description available"),
              ("sequence", Yaml.seq [])],
             Yaml.map [("id", Yaml.int 1), ("display_name", Yaml.str "wf2"),
              ("description", Yaml.str "No description available"),
              ("sequence", Yaml.seq [])]])]) ∧
    lookupKey ([Yaml.map [("id", Yaml.int 0), ("display_name", Yaml.str "Intro"),
          ("description", Yaml.str "No description available"), ("sequence", Yaml.seq [])],
        Yaml.map [("id", Yaml.int 1), ("display_name", Yaml.str "wf2"),
          ("description", Yaml.str "No description available"),
          ("sequence", Yaml.seq [])]].get ⟨1, by decide⟩) "id"
        = some (Yaml.int (Int.ofNat 1)) ∧
    list_workflows exampleSettings exampleParse "simple"
        = EndpointResult.ok (Yaml.map [("workflows", Yaml.seq
            [Yaml.map [("id", Yaml.int 0), ("display_name", Yaml.str "Intro"),
              ("description", Yaml.str "No description available")],
             Yaml.map [("id", Yaml.int 1), ("display_name", Yaml.str "wf2"),
              ("description", Yaml.str "No description available")]])]) ∧
    lookupKey ([Yaml.map [("id", Yaml.int 0), ("display_name", Yaml.str "Intro"),
          ("description", Yaml.str "No description available")],
        Yaml.map [("id", Yaml.int 1), ("display_name", Yaml.str "wf2"),
          ("description", Yaml.str "No description available")]].get ⟨1, by decide⟩) "id"
        = some (Yaml.int (Int.ofNat 1)) :=
  c10_workflow_ids_positional exampleSettings { key := "Assistant ADL", value := "blob" }
    exampleParse exampleDoc
    (Yaml.map [("wf1", Yaml.map [("display_name", Yaml.str "Intro")]), ("wf2", Yaml.map [])])
    [Yaml.map [("id", Yaml.str "wf1"), ("display_name", Yaml.str "Intro"),
        ("description", Yaml.str "No description available"), ("sequence", Yaml.seq [])],
     Yaml.map [("id", Yaml.str "wf2"), ("display_name", Yaml.str "wf2"),
        ("description", Yaml.str "No description available"), ("sequence", Yaml.seq [])]]
    [Yaml.map [("id", Yaml.int 0), ("display_name", Yaml.str "Intro"),
        ("description", Yaml.str "No description available"), ("sequence", Yaml.seq [])],
     Yaml.map [("id", Yaml.int 1), ("display_name", Yaml.str "wf2"),
        ("description", Yaml.str "No description available"), ("sequence", Yaml.seq [])]]
    [Yaml.map [("id", Yaml.int 0), ("display_name", Yaml.str "Intro"),
        ("description", Yaml.str "No description available")],
     Yaml.map [("id", Yaml.int 1), ("display_name", Yaml.str "wf2"),
        ("description", Yaml.str "No description available")]]
    1 rfl (by decide) rfl rfl rfl rfl rfl (by decide) (by decide)

/-- Claim C8: the download endpoint exports the stored blob verbatim, so
re-parsing the exported content yields the same parsed document, and every
path that resolved in the original document still resolves to the same
value through the navigator. -/
theorem c8_download_roundtrip (settings : List Setting) (s : Setting)
    (parse : String → ParseResult) (resp : DownloadResponse)
    (doc doc2 : Yaml) (path : String) (v : Yaml)
    (hfind : findADL settings = some s)
    (hdl : download_adl_yaml settings parse = EndpointResult.ok resp)
    (hparse : parse s.value = ParseResult.ok doc)
    (hre : parse resp.content = ParseResult.ok doc2)
    (hres : get_value_from_path doc path = Except.ok v) :
    resp.content = s.value ∧ get_value_from_path doc2 path = Except.ok v := by
  have hcontent : resp.content = s.value := by
    simp only [download_adl_yaml, hfind] at hdl
    by_cases hv : s.value = ""
    · rw [if_pos hv] at hdl
      exact EndpointResult.noConfusion hdl
    · rw [if_neg hv] at hdl
      injection hdl with h2
      rw [← h2]
  refine ⟨hcontent, ?_⟩
  rw [hcontent, hparse] at hre
  injection hre with h3
  rw [← h3]
  exact hres

/-- Witness for C8: downloading the example blob and re-parsing it leaves
the options path resolving to the same subtree. -/
theorem c8_witness :
    ({ content := "blob", media_type := "text/yaml",
       headers :=
         [("Content-Disposition", "attachment; filename=\"assistant.yaml\""),
          ("Cache-Control", "no-store, no-cache, must-revalidate, max-age=0"),
          ("Pragma", "no-cache"),
          ("Expires", "0")] } : DownloadResponse).content = "blob" ∧
    get_value_from_path exampleDoc "assistant_instructions.tools.options"
      = Except.ok (Yaml.map [("opt1", Yaml.map [])]) :=
  c8_download_roundtrip exampleSettings { key := "Assistant ADL", value := "blob" }
    exampleParse
    { content := "blob", media_type := "text/yaml",
      headers :=
        [("Content-Disposition", "attachment; filename=\"assistant.yaml\""),
         ("Cache-Control", "no-store, no-cache, must-revalidate, max-age=0"),
         ("Pragma", "no-cache"),
         ("Expires", "0")] }
    exampleDoc exampleDoc "assistant_instructions.tools.options"
    (Yaml.map [("opt1", Yaml.map [])])
    rfl rfl rfl rfl rfl
